import Mathlib

/-!
# User repository and HTTP dispatcher (`main.go`)

A shallow embedding of the in-memory CRUD service: the `User` record, the
`UserRepository` built on `sync.Map`, the five HTTP handlers and the
`requestHandler` switch of `main`.

Modelling conventions.

* A Go method that mutates its receiver becomes a function returning the new
  receiver: `Create : UserRepository → User → UserRepository`.
* `sync.Map` is a list of key/value entries.  `Store` drops every entry under
  the key and puts the new one in front, `Delete` drops every entry under the
  key, `Load` looks the key up, `Range` visits the entries in list order.  The
  operations are total on every list; the lists built from the empty map have
  pairwise distinct keys (`Store_keys_nodup`, `Delete_keys_nodup`).
* A Go slice is `Slice.nil` (the `nil` slice) or `Slice.mk elems`.
* A handler receives the request context and the repository and returns both.
  The response part of the context holds the status code, the content type and
  the body, as `fasthttp` keeps them.
* `json.Unmarshal` is an argument of the two handlers that call it;
  `json.Marshal` is modelled for the two types it is called at (`User`,
  `[]User`) on text that is valid UTF-8.
* What "is the JSON encoding of a record" means is fixed by a reader written
  from the JSON grammar of RFC 8259 (`readString`, `readInt`, `decodeUser`),
  independent of the encoder: strings with their escapes, integers without
  leading zeros, the object with its three members.
-/

namespace UserCrud

/-! ## Data model -/

/-- The `User` struct (`main.go` 11-15). -/
structure User where
  ID : String
  Name : String
  Age : Int
deriving DecidableEq, Repr

/-- The zero value `User{}`. -/
def User.zero : User := ⟨"", "", 0⟩

/-- A Go slice: the `nil` slice, or a slice with the given elements. -/
inductive Slice (α : Type) where
  | nil : Slice α
  | mk (elems : List α) : Slice α
deriving DecidableEq, Repr

/-- The elements of a slice; the `nil` slice has none. -/
def Slice.toList {α : Type} : Slice α → List α
  | .nil => []
  | .mk elems => elems

/-- Go's `append(s, x)`: the result is never the `nil` slice. -/
def Slice.append {α : Type} (s : Slice α) (x : α) : Slice α :=
  .mk (s.toList ++ [x])

/-! ## `sync.Map` -/

/-- The contents of a `sync.Map` with `string` keys and `User` values. -/
structure SyncMap where
  entries : List (String × User)
deriving DecidableEq, Repr

/-- The keys of the map, in visiting order. -/
def SyncMap.keys (m : SyncMap) : List String := m.entries.map Prod.fst

/-- `m.Store(key, value)`: sets the value for a key. -/
def SyncMap.Store (m : SyncMap) (key : String) (value : User) : SyncMap :=
  ⟨(key, value) :: m.entries.filter (fun e => e.1 != key)⟩

/-- `m.Load(key)`: the value stored for a key, `none` when there is none
(`ok = false`). -/
def SyncMap.Load (m : SyncMap) (key : String) : Option User :=
  m.entries.lookup key

/-- `m.Delete(key)`: deletes the value for a key. -/
def SyncMap.Delete (m : SyncMap) (key : String) : SyncMap :=
  ⟨m.entries.filter (fun e => e.1 != key)⟩

/-- The loop of `Range` over the entries still to visit: `f` is called on each
entry with the state of the closure, and the loop stops when `f` returns
`false`. -/
def SyncMap.rangeLoop {σ : Type} (f : String → User → σ → σ × Bool) :
    List (String × User) → σ → σ
  | [], acc => acc
  | (k, v) :: rest, acc =>
    match f k v acc with
    | (acc', true) => SyncMap.rangeLoop f rest acc'
    | (acc', false) => acc'

/-- `m.Range(f)`: calls `f` for each key and value present in the map. -/
def SyncMap.Range {σ : Type} (m : SyncMap) (f : String → User → σ → σ × Bool)
    (acc : σ) : σ :=
  SyncMap.rangeLoop f m.entries acc

/-! ## Repository (`main.go` 17-52) -/

/-- The `UserRepository` struct. -/
structure UserRepository where
  users : SyncMap
deriving DecidableEq, Repr

/-- `NewUserRepository()`: a repository with the zero `sync.Map`. -/
def NewUserRepository : UserRepository := ⟨⟨[]⟩⟩

/-- `r.Create(user)`. -/
def UserRepository.Create (r : UserRepository) (user : User) : UserRepository :=
  ⟨r.users.Store user.ID user⟩

/-- `r.Read(id)`. -/
def UserRepository.Read (r : UserRepository) (id : String) : User × Bool :=
  match r.users.Load id with
  | none => (User.zero, false)
  | some user => (user, true)

/-- `r.Update(id, newUser)`. -/
def UserRepository.Update (r : UserRepository) (id : String) (newUser : User) :
    UserRepository :=
  ⟨r.users.Store id newUser⟩

/-- `r.Delete(id)`. -/
def UserRepository.Delete (r : UserRepository) (id : String) : UserRepository :=
  ⟨r.users.Delete id⟩

/-- `r.List()`: `userList` starts as the `nil` slice and the callback appends
each value and returns `true`. -/
def UserRepository.List (r : UserRepository) : Slice User :=
  r.users.Range (fun _ value userList => (userList.append value, true)) Slice.nil

/-! ## `encoding/json` at the types used -/

/-- The table `hex` of `encoding/json`. -/
def hexDigit (n : Nat) : Char := "0123456789abcdef".toList.getD n '0'

/-- The table `htmlSafeSet`: the ASCII characters from the space on, except the
double quote, the backslash, `<`, `>` and `&`. -/
def htmlSafe (c : Char) : Bool :=
  decide (0x20 ≤ c.toNat) && decide (c.toNat < 0x80) && c.toNat != 0x22 && c.toNat != 0x5c &&
    c.toNat != 0x3c && c.toNat != 0x3e && c.toNat != 0x26

/-- The encoding of one character inside a JSON string, with HTML escaping on
(the setting of `json.Marshal`). -/
def encodeChar (c : Char) : String :=
  if c.toNat < 0x80 then
    if htmlSafe c then String.singleton c
    else if c.toNat = 0x5c ∨ c.toNat = 0x22 then "\\" ++ String.singleton c
    else if c.toNat = 0x08 then "\\b"
    else if c.toNat = 0x0c then "\\f"
    else if c.toNat = 0x0a then "\\n"
    else if c.toNat = 0x0d then "\\r"
    else if c.toNat = 0x09 then "\\t"
    else "\\u00" ++ String.singleton (hexDigit (c.toNat / 16)) ++
      String.singleton (hexDigit (c.toNat % 16))
  else if c.toNat = 0x2028 ∨ c.toNat = 0x2029 then
    "\\u202" ++ String.singleton (hexDigit (c.toNat % 16))
  else String.singleton c

/-- The JSON string literal for a Go string. -/
def encodeString (s : String) : String :=
  "\"" ++ String.join (s.toList.map encodeChar) ++ "\""

/-- The decimal form of a Go `int`. -/
def formatInt (i : Int) : String :=
  if i < 0 then "-" ++ Nat.repr i.natAbs else Nat.repr i.natAbs

/-- The value of `json.Marshal(user)`: the fields in declaration order under the
names of their `json` tags.  It has no error case at this type. -/
def marshalUser (user : User) : String :=
  "\x7b\"id\":" ++ encodeString user.ID ++ ",\"name\":" ++ encodeString user.Name ++
    ",\"age\":" ++ formatInt user.Age ++ "\x7d"

/-- The value of `json.Marshal(users)` for a `[]User`: the `nil` slice encodes as
`null`, every other slice as a JSON array. -/
def marshalUsers : Slice User → String
  | .nil => "null"
  | .mk elems => "[" ++ String.intercalate "," (elems.map marshalUser) ++ "]"

/-! ## `fasthttp` request context -/

/-- The parts of the request the handlers read. -/
structure Request where
  path : String
  method : String
  queryArgs : List (String × String)
  postBody : String
deriving DecidableEq, Repr

/-- The parts of the response the handlers write. -/
structure Response where
  statusCode : Nat
  contentType : String
  body : String
deriving DecidableEq, Repr

/-- The `fasthttp.RequestCtx`. -/
structure RequestCtx where
  Request : UserCrud.Request
  Response : UserCrud.Response
deriving DecidableEq, Repr

def StatusOK : Nat := 200
def StatusCreated : Nat := 201
def StatusNoContent : Nat := 204
def StatusBadRequest : Nat := 400
def StatusNotFound : Nat := 404
def StatusMethodNotAllowed : Nat := 405

def MethodGet : String := "GET"
def MethodPost : String := "POST"
def MethodPut : String := "PUT"
def MethodDelete : String := "DELETE"

/-- The content type of a response that sets none. -/
def defaultContentType : String := "text/plain; charset=utf-8"

/-- The response of a context before a handler has written to it: status 200,
the default content type, an empty body. -/
def Response.fresh : Response := ⟨StatusOK, defaultContentType, ""⟩

/-- The context the server hands to the handler for a request. -/
def RequestCtx.init (req : UserCrud.Request) : RequestCtx := ⟨req, Response.fresh⟩

/-- `ctx.Error(msg, statusCode)`: resets the response, then sets the status
code, the default content type and the message as body. -/
def RequestCtx.Error (ctx : RequestCtx) (msg : String) (statusCode : Nat) : RequestCtx :=
  { ctx with Response := ⟨statusCode, defaultContentType, msg⟩ }

/-- `ctx.SetStatusCode(statusCode)`. -/
def RequestCtx.SetStatusCode (ctx : RequestCtx) (statusCode : Nat) : RequestCtx :=
  { ctx with Response := { ctx.Response with statusCode := statusCode } }

/-- `ctx.SetContentType(contentType)`. -/
def RequestCtx.SetContentType (ctx : RequestCtx) (contentType : String) : RequestCtx :=
  { ctx with Response := { ctx.Response with contentType := contentType } }

/-- `ctx.SetBody(body)`. -/
def RequestCtx.SetBody (ctx : RequestCtx) (body : String) : RequestCtx :=
  { ctx with Response := { ctx.Response with body := body } }

/-- `ctx.QueryArgs().Peek(key)`: the value of the first argument with the key,
`none` (the `nil` byte slice) when there is none. -/
def RequestCtx.Peek (ctx : RequestCtx) (key : String) : Option String :=
  ctx.Request.queryArgs.lookup key

/-- `string(b)` for a byte slice that may be `nil`. -/
def bytesToString : Option String → String
  | none => ""
  | some s => s

/-! ## Handlers (`main.go` 54-105) -/

/-- `CreateUser(ctx, userRepository)`; `Unmarshal body` is the `User` that
`json.Unmarshal(body, &user)` decodes into the zero `user`, `none` when it
returns an error. -/
def CreateUser (Unmarshal : String → Option User) (ctx : RequestCtx)
    (userRepository : UserRepository) : RequestCtx × UserRepository :=
  match Unmarshal ctx.Request.postBody with
  | none => (ctx.Error "Invalid request body" StatusBadRequest, userRepository)
  | some user =>
    let userRepository := userRepository.Create user
    let ctx := ctx.SetStatusCode StatusCreated
    (ctx.SetBody "User created successfully", userRepository)

/-- `GetUser(ctx, userRepository)`. -/
def GetUser (ctx : RequestCtx) (userRepository : UserRepository) :
    RequestCtx × UserRepository :=
  let id := bytesToString (ctx.Peek "id")
  if id = "" then
    (ctx.Error "User ID not provided" StatusBadRequest, userRepository)
  else
    match userRepository.Read id with
    | (_, false) => (ctx.Error "User not found" StatusNotFound, userRepository)
    | (user, true) =>
      let jsonResponse := marshalUser user
      let ctx := ctx.SetContentType "application/json"
      (ctx.SetBody jsonResponse, userRepository)

/-- `UpdateUser(ctx, userRepository)`. -/
def UpdateUser (Unmarshal : String → Option User) (ctx : RequestCtx)
    (userRepository : UserRepository) : RequestCtx × UserRepository :=
  let id := bytesToString (ctx.Peek "id")
  match Unmarshal ctx.Request.postBody with
  | none => (ctx.Error "Invalid request body" StatusBadRequest, userRepository)
  | some newUser =>
    let userRepository := userRepository.Update id newUser
    let ctx := ctx.SetStatusCode StatusOK
    (ctx.SetBody "User updated successfully", userRepository)

/-- `DeleteUser(ctx, userRepository)`. -/
def DeleteUser (ctx : RequestCtx) (userRepository : UserRepository) :
    RequestCtx × UserRepository :=
  let id := bytesToString (ctx.Peek "id")
  let userRepository := userRepository.Delete id
  let ctx := ctx.SetStatusCode StatusNoContent
  (ctx.SetBody "User deleted successfully", userRepository)

/-- `ListUsers(ctx, userRepository)`. -/
def ListUsers (ctx : RequestCtx) (userRepository : UserRepository) :
    RequestCtx × UserRepository :=
  let users := userRepository.List
  let jsonResponse := marshalUsers users
  let ctx := ctx.SetContentType "application/json"
  (ctx.SetBody jsonResponse, userRepository)

/-! ## Dispatcher (`main.go` 110-150) -/

/-- The closure `requestHandler` of `main`, with the repository it captures as
an argument and a result. -/
def requestHandler (Unmarshal : String → Option User) (ctx : RequestCtx)
    (userRepository : UserRepository) : RequestCtx × UserRepository :=
  if ctx.Request.path = "/create" then
    if ctx.Request.method = MethodPost then CreateUser Unmarshal ctx userRepository
    else (ctx.Error "Method not allowed" StatusMethodNotAllowed, userRepository)
  else if ctx.Request.path = "/get" then
    if ctx.Request.method = MethodGet then GetUser ctx userRepository
    else (ctx.Error "Method not allowed" StatusMethodNotAllowed, userRepository)
  else if ctx.Request.path = "/update" then
    if ctx.Request.method = MethodPut then UpdateUser Unmarshal ctx userRepository
    else (ctx.Error "Method not allowed" StatusMethodNotAllowed, userRepository)
  else if ctx.Request.path = "/delete" then
    if ctx.Request.method = MethodDelete then DeleteUser ctx userRepository
    else (ctx.Error "Method not allowed" StatusMethodNotAllowed, userRepository)
  else if ctx.Request.path = "/list" then
    if ctx.Request.method = MethodGet then ListUsers ctx userRepository
    else (ctx.Error "Method not allowed" StatusMethodNotAllowed, userRepository)
  else (ctx.Error "Unsupported path" StatusNotFound, userRepository)

/-! ## Call sequences -/

/-- One mutating call on the repository. -/
inductive Op where
  | create (user : User) : Op
  | update (id : String) (newUser : User) : Op
  | delete (id : String) : Op
deriving DecidableEq, Repr

/-- The repository after one call. -/
def Op.apply (r : UserRepository) : Op → UserRepository
  | .create user => r.Create user
  | .update id newUser => r.Update id newUser
  | .delete id => r.Delete id

/-- The repository after a sequence of calls, in order. -/
def runFrom (r : UserRepository) (ops : List Op) : UserRepository :=
  ops.foldl Op.apply r

/-- The repository after `Create` on each record of a sequence, in order. -/
def createAll (r : UserRepository) (records : List User) : UserRepository :=
  records.foldl UserRepository.Create r

/-! ## Reading JSON text (RFC 8259) -/

/-- The value of one hexadecimal digit of a `\u` escape. -/
def hexValue (c : Char) : Option Nat :=
  if 0x30 ≤ c.toNat ∧ c.toNat ≤ 0x39 then some (c.toNat - 0x30)
  else if 0x61 ≤ c.toNat ∧ c.toNat ≤ 0x66 then some (c.toNat - 0x61 + 10)
  else if 0x41 ≤ c.toNat ∧ c.toNat ≤ 0x46 then some (c.toNat - 0x41 + 10)
  else none

/-- The character a two-character escape stands for: the character after the
backslash is one of the quote, the backslash, `/`, `b`, `f`, `n`, `r`, `t`. -/
def unescape (e : Char) : Option Char :=
  if e.toNat = 0x22 then some (Char.ofNat 0x22)
  else if e.toNat = 0x5c then some (Char.ofNat 0x5c)
  else if e.toNat = 0x2f then some (Char.ofNat 0x2f)
  else if e.toNat = 0x62 then some (Char.ofNat 0x08)
  else if e.toNat = 0x66 then some (Char.ofNat 0x0c)
  else if e.toNat = 0x6e then some (Char.ofNat 0x0a)
  else if e.toNat = 0x72 then some (Char.ofNat 0x0d)
  else if e.toNat = 0x74 then some (Char.ofNat 0x09)
  else none

/-- Reads one character of a JSON string from the text: an unescaped character
(not the quote, not the backslash, not a control character below U+0020), a
two-character escape, or a `\u` escape of four hexadecimal digits outside the
surrogate range.  The result is the character read and the text after it;
`none` on any other text. -/
def readChar : List Char → Option (Char × List Char)
  | [] => none
  | c :: rest =>
    if c.toNat = 0x5c then
      match rest with
      | [] => none
      | e :: rest1 =>
        if e.toNat = 0x75 then
          match rest1 with
          | h3 :: h2 :: h1 :: h0 :: rest2 =>
            match hexValue h3, hexValue h2, hexValue h1, hexValue h0 with
            | some x3, some x2, some x1, some x0 =>
              if 0xd800 ≤ ((x3 * 16 + x2) * 16 + x1) * 16 + x0 ∧
                  ((x3 * 16 + x2) * 16 + x1) * 16 + x0 ≤ 0xdfff then none
              else some (Char.ofNat (((x3 * 16 + x2) * 16 + x1) * 16 + x0), rest2)
            | _, _, _, _ => none
          | _ => none
        else
          match unescape e with
          | some ch => some (ch, rest1)
          | none => none
    else if c.toNat = 0x22 ∨ c.toNat < 0x20 then none
    else some (c, rest)

/-- Reads the characters of a JSON string up to its closing quote, in at most
`fuel` steps.  The result is the string read and the text after the closing
quote. -/
def readChars : Nat → List Char → Option (List Char × List Char)
  | 0, _ => none
  | fuel + 1, input =>
    match input with
    | [] => none
    | c :: rest =>
      if c.toNat = 0x22 then some ([], rest)
      else
        match readChar (c :: rest) with
        | none => none
        | some (ch, rest1) =>
          match readChars fuel rest1 with
          | none => none
          | some (chs, rest2) => some (ch :: chs, rest2)

/-- Reads a JSON string: the opening quote, the characters, the closing quote.
Every step of `readChars` consumes a character, so the length of the text is
fuel enough. -/
def readString : List Char → Option (String × List Char)
  | [] => none
  | q :: rest =>
    if q.toNat = 0x22 then
      match readChars rest.length rest with
      | none => none
      | some (chs, rest1) => some (String.mk chs, rest1)
    else none

/-- Whether a character is one of the decimal digits `0` to `9`. -/
def isDecimalDigit (c : Char) : Bool := decide (0x30 ≤ c.toNat) && decide (c.toNat ≤ 0x39)

/-- The number written by a sequence of decimal digits. -/
def digitsValue (ds : List Char) : Nat :=
  ds.foldl (fun n c => 10 * n + (c.toNat - 0x30)) 0

/-- Reads an unsigned JSON integer: a single `0`, or a digit `1` to `9`
followed by digits; no leading zero. -/
def readNat (input : List Char) : Option (Nat × List Char) :=
  match input.takeWhile isDecimalDigit with
  | [] => none
  | d :: more =>
    if d.toNat = 0x30 ∧ more ≠ [] then none
    else some (digitsValue (d :: more), input.dropWhile isDecimalDigit)

/-- Reads a JSON integer: an optional minus sign, then an unsigned integer. -/
def readInt : List Char → Option (Int × List Char)
  | [] => none
  | c :: rest =>
    if c.toNat = 0x2d then
      match readNat rest with
      | none => none
      | some (n, rest1) => some (-(n : Int), rest1)
    else
      match readNat (c :: rest) with
      | none => none
      | some (n, rest1) => some ((n : Int), rest1)

/-- Reads the given literal text from the front of the input. -/
def expect : List Char → List Char → Option (List Char)
  | [], input => some input
  | _ :: _, [] => none
  | l :: lit, c :: input => if l = c then expect lit input else none

/-- Reads a body as the JSON object with the members `id` (a string), `name` (a
string) and `age` (an integer), in this order and without white space, and
nothing after it.  Every text it accepts is a JSON object text with exactly
these three members, and the result is the `User` with their values. -/
def decodeUser (body : String) : Option User :=
  match expect "\x7b\"id\":".toList body.toList with
  | none => none
  | some r1 =>
    match readString r1 with
    | none => none
    | some (id, r2) =>
      match expect ",\"name\":".toList r2 with
      | none => none
      | some r3 =>
        match readString r3 with
        | none => none
        | some (name, r4) =>
          match expect ",\"age\":".toList r4 with
          | none => none
          | some r5 =>
            match readInt r5 with
            | none => none
            | some (age, r6) =>
              match r6 with
              | [c] => if c.toNat = 0x7d then some ⟨id, name, age⟩ else none
              | _ => none

/-- Every stored record sits under its own `ID` field. -/
def keyed (r : UserRepository) : Prop := ∀ e ∈ r.users.entries, e.2.ID = e.1

/-! ## Lemmas on `sync.Map` -/

theorem lookup_filter_self (l : List (String × User)) (k : String) :
    (l.filter (fun e => e.1 != k)).lookup k = none := by
  induction l with
  | nil => rfl
  | cons e l ih =>
    obtain ⟨a, b⟩ := e
    by_cases h : a = k
    · subst h
      simpa [List.filter_cons] using ih
    · have hk : (k == a) = false := by simpa using fun h' => h h'.symm
      simp [List.filter_cons, h, List.lookup_cons, hk, ih]

theorem lookup_filter_of_ne (l : List (String × User)) {k k' : String} (hne : k' ≠ k) :
    (l.filter (fun e => e.1 != k)).lookup k' = l.lookup k' := by
  induction l with
  | nil => rfl
  | cons e l ih =>
    obtain ⟨a, b⟩ := e
    by_cases h : a = k
    · subst h
      have hk : (k' == a) = false := by simpa using hne
      simp [List.filter_cons, List.lookup_cons, hk, ih]
    · by_cases h' : k' = a
      · subst h'
        simp [List.filter_cons, h, List.lookup_cons]
      · have hk : (k' == a) = false := by simpa using h'
        simp [List.filter_cons, h, List.lookup_cons, hk, ih]

theorem lookup_eq_none_iff_not_mem_keys (l : List (String × User)) (k : String) :
    l.lookup k = none ↔ k ∉ l.map Prod.fst := by
  induction l with
  | nil => simp
  | cons e l ih =>
    obtain ⟨a, b⟩ := e
    by_cases h : k = a
    · subst h
      simp [List.lookup_cons]
    · have hk : (k == a) = false := by simpa using h
      simp only [List.lookup_cons, hk, ih, List.map_cons, List.mem_cons, h, false_or]

theorem filter_ne_of_not_mem_keys (l : List (String × User)) (k : String)
    (h : k ∉ l.map Prod.fst) : l.filter (fun e => e.1 != k) = l := by
  rw [List.filter_eq_self]
  intro e he
  have : e.1 ≠ k := fun hek => h (hek ▸ List.mem_map_of_mem Prod.fst he)
  simpa using this

theorem Load_Store_self (m : SyncMap) (k : String) (v : User) :
    (m.Store k v).Load k = some v := by
  simp [SyncMap.Store, SyncMap.Load, List.lookup_cons]

theorem Load_Store_of_ne (m : SyncMap) {k k' : String} (v : User) (hne : k' ≠ k) :
    (m.Store k v).Load k' = m.Load k' := by
  have hk : (k' == k) = false := by simpa using hne
  simp [SyncMap.Store, SyncMap.Load, List.lookup_cons, hk, lookup_filter_of_ne _ hne]

theorem Load_Delete_self (m : SyncMap) (k : String) : (m.Delete k).Load k = none :=
  lookup_filter_self m.entries k

theorem Load_Delete_of_ne (m : SyncMap) {k k' : String} (hne : k' ≠ k) :
    (m.Delete k).Load k' = m.Load k' :=
  lookup_filter_of_ne m.entries hne

theorem Delete_Delete (m : SyncMap) (k : String) : (m.Delete k).Delete k = m.Delete k := by
  simp [SyncMap.Delete, List.filter_filter]

theorem Delete_of_Load_none (m : SyncMap) (k : String) (h : m.Load k = none) :
    m.Delete k = m := by
  cases m with
  | mk entries =>
    simp only [SyncMap.Delete, SyncMap.mk.injEq]
    exact filter_ne_of_not_mem_keys entries k ((lookup_eq_none_iff_not_mem_keys entries k).1 h)

theorem Read_snd_eq_false_iff (r : UserRepository) (id : String) :
    (r.Read id).2 = false ↔ r.users.Load id = none := by
  unfold UserRepository.Read
  cases r.users.Load id <;> simp

theorem Read_of_Load_none (r : UserRepository) (id : String) (h : r.users.Load id = none) :
    r.Read id = (User.zero, false) := by
  simp [UserRepository.Read, h]

theorem Read_of_Load_some (r : UserRepository) (id : String) (u : User)
    (h : r.users.Load id = some u) : r.Read id = (u, true) := by
  simp [UserRepository.Read, h]

theorem Read_Delete_self (r : UserRepository) (id : String) :
    (r.Delete id).Read id = (User.zero, false) :=
  Read_of_Load_none _ _ (Load_Delete_self r.users id)

theorem Delete_of_Read_false (r : UserRepository) (id : String) (h : (r.Read id).2 = false) :
    r.Delete id = r := by
  cases r with
  | mk users =>
    have hl : users.Load id = none := (Read_snd_eq_false_iff ⟨users⟩ id).1 h
    simp [UserRepository.Delete, Delete_of_Load_none users id hl]

/-! ## Repository contracts -/

/-- C1, create-then-read: in every repository state `s`, for every id `X` and
every record `R` whose `ID` field is `X`, `Read(X)` after `Create(R)` returns
`(R, true)`, whatever `s` stored under `X`. -/
theorem Create_then_Read (s : UserRepository) (X : String) (R : User) (hid : R.ID = X) :
    (s.Create R).Read X = (R, true) := by
  subst hid
  exact Read_of_Load_some _ _ _ (Load_Store_self s.users R.ID R)

theorem Create_then_Read_witness :
    (⟨"a", "Bob", 0⟩ : User).ID = "a" ∧
      ((NewUserRepository.Create ⟨"a", "Alice", 30⟩).Create ⟨"a", "Bob", 0⟩).Read "a" =
        (⟨"a", "Bob", 0⟩, true) :=
  ⟨rfl, Create_then_Read (NewUserRepository.Create ⟨"a", "Alice", 30⟩) "a" ⟨"a", "Bob", 0⟩ rfl⟩

/-- C2, update overwrites fully under the id argument: in every repository
state, for every id and every record `newUser` (whether or not `newUser.ID` is
`id`, whether or not a record was stored under `id`), `Read(id)` after
`Update(id, newUser)` returns `(newUser, true)`, so the three fields read back
are those of `newUser`; in particular `Create({a,Alice,30})`,
`Update("a",{a,Bob,0})`, `Read("a")` gives `{a,Bob,0}`. -/
theorem Update_then_Read (s : UserRepository) (id : String) (newUser : User) :
    (s.Update id newUser).Read id = (newUser, true) ∧
      ((s.Update id newUser).Read id).1.ID = newUser.ID ∧
      ((s.Update id newUser).Read id).1.Name = newUser.Name ∧
      ((s.Update id newUser).Read id).1.Age = newUser.Age ∧
      (((s.Create ⟨"a", "Alice", 30⟩).Update "a" ⟨"a", "Bob", 0⟩).Read "a" =
        (⟨"a", "Bob", 0⟩, true)) := by
  have h : ∀ (r : UserRepository) (k : String) (u : User), (r.Update k u).Read k = (u, true) :=
    fun r k u => Read_of_Load_some _ _ _ (Load_Store_self r.users k u)
  refine ⟨h s id newUser, ?_, ?_, ?_, h _ _ _⟩ <;> rw [h s id newUser]

/-- C3, idempotent delete: in every repository state `s` and for every id `X`,
`Delete(X)` twice gives the state of `Delete(X)` once, `Delete(X)` on a state
with no record under `X` gives `s` back, and `Read(X)` returns the zero `User`
and `false` after the first call and after the second. -/
theorem Delete_idempotent (s : UserRepository) (X : String) :
    (s.Delete X).Delete X = s.Delete X ∧
      ((s.Read X).2 = false → s.Delete X = s) ∧
      (s.Delete X).Read X = (User.zero, false) ∧
      ((s.Delete X).Delete X).Read X = (User.zero, false) := by
  refine ⟨?_, Delete_of_Read_false s X, Read_Delete_self s X, Read_Delete_self _ X⟩
  simp [UserRepository.Delete, Delete_Delete]

theorem Delete_idempotent_witness :
    ((NewUserRepository.Create ⟨"a", "Alice", 30⟩).Read "b").2 = false ∧
      (NewUserRepository.Create ⟨"a", "Alice", 30⟩).Delete "b" =
        NewUserRepository.Create ⟨"a", "Alice", 30⟩ :=
  ⟨by decide,
    (Delete_idempotent (NewUserRepository.Create ⟨"a", "Alice", 30⟩) "b").2.1 (by decide)⟩

/-! ## `List` and the stored records -/

theorem rangeLoop_append (es : List (String × User)) (acc : Slice User) :
    SyncMap.rangeLoop (fun _ value userList => (userList.append value, true)) es acc =
      match es with
      | [] => acc
      | _ :: _ => Slice.mk (acc.toList ++ es.map Prod.snd) := by
  induction es generalizing acc with
  | nil => rfl
  | cons e rest ih =>
    obtain ⟨k, v⟩ := e
    simp only [SyncMap.rangeLoop]
    rw [ih]
    cases rest with
    | nil => simp [Slice.append]
    | cons e' rest' => simp [Slice.append, Slice.toList]

theorem List_eq (r : UserRepository) :
    r.List = match r.users.entries with
      | [] => Slice.nil
      | _ :: _ => Slice.mk (r.users.entries.map Prod.snd) := by
  unfold UserRepository.List SyncMap.Range
  rw [rangeLoop_append]
  cases r.users.entries <;> simp [Slice.toList]

theorem List_toList (r : UserRepository) :
    r.List.toList = r.users.entries.map Prod.snd := by
  rw [List_eq]
  cases r.users.entries <;> simp [Slice.toList]

theorem createAll_entries (records : List User) (r : UserRepository)
    (hids : (records.map User.ID).Nodup) (hfresh : ∀ u ∈ records, u.ID ∉ r.users.keys) :
    (createAll r records).users.entries =
      records.reverse.map (fun u => (u.ID, u)) ++ r.users.entries := by
  induction records generalizing r with
  | nil => simp [createAll]
  | cons u us ih =>
    have hu : u.ID ∉ r.users.keys := hfresh u (List.mem_cons_self _ _)
    have hstep : (r.Create u).users.entries = (u.ID, u) :: r.users.entries := by
      simp only [UserRepository.Create, SyncMap.Store]
      rw [filter_ne_of_not_mem_keys r.users.entries u.ID hu]
    rw [List.map_cons, List.nodup_cons] at hids
    have hfresh' : ∀ v ∈ us, v.ID ∉ (r.Create u).users.keys := by
      intro v hv hmem
      rw [SyncMap.keys, hstep, List.map_cons, List.mem_cons] at hmem
      rcases hmem with h | h
      · have hv' : v.ID ∈ us.map User.ID := List.mem_map_of_mem User.ID hv
        have h' : v.ID = u.ID := h
        exact hids.1 (h' ▸ hv')
      · exact hfresh v (List.mem_cons_of_mem _ hv) h
    have := ih (r.Create u) hids.2 hfresh'
    simp only [createAll, List.foldl_cons] at this ⊢
    rw [this, hstep]
    simp

/-- C4, list reflects all live records: for every finite sequence of records
with pairwise distinct ids, after `Create` on each of them from a fresh
repository, `List()` returns as many records as were created and they are, up
to order, the records created; the same holds in whatever order `Range` visits
the stored entries. -/
theorem List_after_createAll (records : List User) (hids : (records.map User.ID).Nodup) :
    (createAll NewUserRepository records).List.toList.length = records.length ∧
      (createAll NewUserRepository records).List.toList.Perm records ∧
      ∀ r : UserRepository,
        r.users.entries.Perm (createAll NewUserRepository records).users.entries →
          r.List.toList.length = records.length ∧ r.List.toList.Perm records := by
  have hent := createAll_entries records NewUserRepository hids
    (by intro u _; simp [NewUserRepository, SyncMap.keys])
  have hgen : ∀ r : UserRepository,
      r.users.entries.Perm (createAll NewUserRepository records).users.entries →
        r.List.toList.Perm records := by
    intro r hperm
    rw [List_toList]
    have h1 := hperm.map Prod.snd
    rw [hent] at h1
    simp only [NewUserRepository, List.append_nil, List.map_map] at h1
    have h2 : (Prod.snd ∘ fun u : User => (u.ID, u)) = id := rfl
    rw [h2, List.map_id] at h1
    exact h1.trans (List.reverse_perm records)
  have hself := hgen _ (List.Perm.refl _)
  exact ⟨hself.length_eq, hself, fun r hr => ⟨(hgen r hr).length_eq, hgen r hr⟩⟩

theorem List_after_createAll_witness :
    ((([⟨"a", "Alice", 30⟩, ⟨"b", "Bob", 0⟩, ⟨"c", "Carol", 7⟩] : List User).map User.ID).Nodup) ∧
      (createAll NewUserRepository
        [⟨"a", "Alice", 30⟩, ⟨"b", "Bob", 0⟩, ⟨"c", "Carol", 7⟩]).List.toList.length = 3 :=
  ⟨by decide,
    (List_after_createAll [⟨"a", "Alice", 30⟩, ⟨"b", "Bob", 0⟩, ⟨"c", "Carol", 7⟩]
      (by decide)).1⟩

/-! ## Keys and `ID` fields of the stored records -/

theorem Store_keys_nodup (m : SyncMap) (k : String) (v : User) (h : m.keys.Nodup) :
    (m.Store k v).keys.Nodup := by
  simp only [SyncMap.keys, SyncMap.Store, List.map_cons, List.nodup_cons]
  constructor
  · have := lookup_filter_self m.entries k
    exact (lookup_eq_none_iff_not_mem_keys _ k).1 this
  · exact h.sublist ((List.filter_sublist _).map Prod.fst)

theorem Delete_keys_nodup (m : SyncMap) (k : String) (h : m.keys.Nodup) :
    (m.Delete k).keys.Nodup :=
  h.sublist ((List.filter_sublist _).map Prod.fst)

theorem apply_keys_nodup (r : UserRepository) (op : Op) (h : r.users.keys.Nodup) :
    (Op.apply r op).users.keys.Nodup := by
  cases op with
  | create user => exact Store_keys_nodup _ _ _ h
  | update id newUser => exact Store_keys_nodup _ _ _ h
  | delete id => exact Delete_keys_nodup _ _ h

theorem runFrom_keys_nodup (ops : List Op) (r : UserRepository) (h : r.users.keys.Nodup) :
    (runFrom r ops).users.keys.Nodup := by
  induction ops generalizing r with
  | nil => exact h
  | cons op ops ih => exact ih _ (apply_keys_nodup r op h)

theorem Store_keyed (r : UserRepository) (k : String) (v : User) (hk : v.ID = k)
    (h : keyed r) : keyed ⟨r.users.Store k v⟩ := by
  intro e he
  simp only [SyncMap.Store, List.mem_cons, List.mem_filter] at he
  rcases he with rfl | ⟨he, _⟩
  · exact hk
  · exact h e he

theorem runFrom_keyed (ops : List Op) (r : UserRepository) (h : keyed r)
    (hops : ∀ id newUser, Op.update id newUser ∈ ops → newUser.ID = id) :
    keyed (runFrom r ops) := by
  induction ops generalizing r with
  | nil => exact h
  | cons op ops ih =>
    refine ih _ ?_ (fun id u hu => hops id u (List.mem_cons_of_mem _ hu))
    cases op with
    | create user => exact Store_keyed r _ _ rfl h
    | update id newUser => exact Store_keyed r _ _ (hops id newUser (List.mem_cons_self _ _)) h
    | delete id =>
      intro e he
      simp only [Op.apply, UserRepository.Delete, SyncMap.Delete, List.mem_filter] at he
      exact h e he.1

/-- C5 as stated fails: after `Create({a,Alice,30})` and `Update("b",{a,Bob,0})`
the repository holds two records whose `ID` field is `a`, and `List()` returns
both. -/
theorem List_ID_not_unique :
    (runFrom NewUserRepository
        [Op.create ⟨"a", "Alice", 30⟩, Op.update "b" ⟨"a", "Bob", 0⟩]).List.toList =
        [⟨"a", "Bob", 0⟩, ⟨"a", "Alice", 30⟩] ∧
      ¬ ((runFrom NewUserRepository
        [Op.create ⟨"a", "Alice", 30⟩, Op.update "b" ⟨"a", "Bob", 0⟩]).List.toList.map
          User.ID).Nodup := by
  decide

/-- C5, amended: in every repository state reached from the empty repository by
a finite sequence of `Create`, `Update` and `Delete` calls, no two stored
records sit under the same key; and when every `Update(id, newUser)` of the
sequence has `newUser.ID = id`, no two elements of `List()` have the same `ID`
field. -/
theorem List_ID_unique_of_keyed_updates (ops : List Op) :
    (runFrom NewUserRepository ops).users.keys.Nodup ∧
      ((∀ id newUser, Op.update id newUser ∈ ops → newUser.ID = id) →
        ((runFrom NewUserRepository ops).List.toList.map User.ID).Nodup) := by
  have hkeys := runFrom_keys_nodup ops NewUserRepository (by simp [NewUserRepository, SyncMap.keys])
  refine ⟨hkeys, fun hops => ?_⟩
  have hk := runFrom_keyed ops NewUserRepository (by intro e he; simp [NewUserRepository] at he) hops
  rw [List_toList, List.map_map]
  have : (runFrom NewUserRepository ops).users.entries.map (User.ID ∘ Prod.snd) =
      (runFrom NewUserRepository ops).users.keys := by
    unfold SyncMap.keys
    exact List.map_congr_left (fun e he => hk e he)
  rw [this]
  exact hkeys

theorem List_ID_unique_of_keyed_updates_witness :
    (∀ id newUser, Op.update id newUser ∈
        [Op.create ⟨"a", "Alice", 30⟩, Op.update "a" ⟨"a", "Bob", 0⟩, Op.delete "c",
          Op.create ⟨"b", "Bea", 5⟩] → newUser.ID = id) ∧
      ((runFrom NewUserRepository
        [Op.create ⟨"a", "Alice", 30⟩, Op.update "a" ⟨"a", "Bob", 0⟩, Op.delete "c",
          Op.create ⟨"b", "Bea", 5⟩]).List.toList.map User.ID).Nodup := by
  have h : ∀ id newUser, Op.update id newUser ∈
      [Op.create ⟨"a", "Alice", 30⟩, Op.update "a" ⟨"a", "Bob", 0⟩, Op.delete "c",
        Op.create ⟨"b", "Bea", 5⟩] → newUser.ID = id := by
    intro id newUser hmem
    simp only [List.mem_cons, List.mem_singleton, Op.update.injEq, List.not_mem_nil,
      or_false, false_or, reduceCtorEq] at hmem
    rw [hmem.1, hmem.2]
  exact ⟨h, (List_ID_unique_of_keyed_updates
    [Op.create ⟨"a", "Alice", 30⟩, Op.update "a" ⟨"a", "Bob", 0⟩, Op.delete "c",
      Op.create ⟨"b", "Bea", 5⟩]).2 h⟩

/-! ## The reader undoes the encoder -/

theorem char_eq_of_toNat {c : Char} {n : Nat} (h : c.toNat = n) : c = Char.ofNat n := by
  rw [← h, Char.ofNat_toNat]

theorem readChar_encodeChar_ascii (n : Nat) (h : n < 0x80) (tail : List Char) :
    readChar ((encodeChar (Char.ofNat n)).data ++ tail) = some (Char.ofNat n, tail) := by
  interval_cases n <;> rfl

theorem readChar_encodeChar (c : Char) (tail : List Char) :
    readChar ((encodeChar c).data ++ tail) = some (c, tail) := by
  by_cases h80 : c.toNat < 0x80
  · have hc := char_eq_of_toNat (rfl : c.toNat = c.toNat)
    rw [hc]
    exact readChar_encodeChar_ascii c.toNat h80 tail
  · unfold encodeChar
    rw [if_neg h80]
    by_cases h2028 : c.toNat = 0x2028 ∨ c.toNat = 0x2029
    · rw [if_pos h2028]
      rcases h2028 with h | h
      · have hc := char_eq_of_toNat h
        subst hc
        rfl
      · have hc := char_eq_of_toNat h
        subst hc
        rfl
    · rw [if_neg h2028]
      have h5c : ¬ c.toNat = 0x5c := by omega
      have h22 : ¬ c.toNat = 0x22 := by omega
      have hlt : ¬ c.toNat < 0x20 := by omega
      simp [String.singleton, readChar, h5c, h22, hlt]

theorem encodeChar_data_length (c : Char) : 1 ≤ (encodeChar c).data.length := by
  have h := readChar_encodeChar c []
  rcases hd : (encodeChar c).data with _ | ⟨a, l⟩
  · rw [hd] at h
    simp [readChar] at h
  · simp

theorem readChars_step (fuel : Nat) (input : List Char) (ch : Char) (rest : List Char)
    (h : readChar input = some (ch, rest)) :
    readChars (fuel + 1) input =
      match readChars fuel rest with
      | none => none
      | some (chs, rest2) => some (ch :: chs, rest2) := by
  cases input with
  | nil => simp [readChar] at h
  | cons c0 r0 =>
    by_cases hq : c0.toNat = 0x22
    · simp [readChar, hq] at h
    · simp only [readChars, hq, if_false, h]

theorem readChars_encode (cs : List Char) (fuel : Nat) (tail : List Char)
    (hfuel : cs.length < fuel) :
    readChars fuel ((cs.map (fun c => (encodeChar c).data)).flatten ++
      Char.ofNat 0x22 :: tail) = some (cs, tail) := by
  induction cs generalizing fuel with
  | nil =>
    obtain ⟨f, rfl⟩ : ∃ f, fuel = f + 1 := ⟨fuel - 1, by simp at hfuel; omega⟩
    simp [readChars]
  | cons c cs ih =>
    obtain ⟨f, rfl⟩ : ∃ f, fuel = f + 1 := ⟨fuel - 1, by omega⟩
    simp only [List.map_cons, List.flatten_cons, List.append_assoc]
    rw [readChars_step f _ c _ (readChar_encodeChar c _)]
    rw [ih f (by simp at hfuel; omega)]

theorem encode_length_le (cs : List Char) :
    cs.length ≤ (cs.map (fun c => (encodeChar c).data)).flatten.length := by
  induction cs with
  | nil => simp
  | cons c cs ih =>
    have := encodeChar_data_length c
    simp only [List.map_cons, List.flatten_cons, List.length_append, List.length_cons]
    omega

theorem encodeString_data (s : String) :
    (encodeString s).data =
      Char.ofNat 0x22 :: ((s.data.map (fun c => (encodeChar c).data)).flatten ++
        [Char.ofNat 0x22]) := by
  simp only [encodeString, String.data_append, String.data_join, String.toList, List.map_map]
  rfl

theorem readString_encodeString (s : String) (tail : List Char) :
    readString ((encodeString s).data ++ tail) = some (s, tail) := by
  rw [encodeString_data]
  simp only [List.cons_append, List.append_assoc, List.nil_append, readString]
  rw [if_pos (by decide)]
  rw [readChars_encode s.data _ tail (by
    have := encode_length_le s.data
    simp only [List.length_append, List.length_cons]
    omega)]

theorem digitChar_toNat (k : Nat) (h : k < 10) : (Nat.digitChar k).toNat = 0x30 + k := by
  interval_cases k <;> rfl

theorem digitsValue_append_single (l : List Char) (d : Char) :
    digitsValue (l ++ [d]) = 10 * digitsValue l + (d.toNat - 0x30) := by
  simp [digitsValue, List.foldl_append]

theorem toDigitsCore_spec (fuel : Nat) (n : Nat) (ds : List Char) (h : n < fuel) :
    ∃ l : List Char, Nat.toDigitsCore 10 fuel n ds = l ++ ds ∧
      (∀ c ∈ l, isDecimalDigit c = true) ∧ digitsValue l = n ∧ l ≠ [] ∧
      (∀ d more, l = d :: more → d.toNat = 0x30 → n = 0) := by
  induction fuel generalizing n ds with
  | zero => omega
  | succ fuel ih =>
    have hd := digitChar_toNat (n % 10) (Nat.mod_lt _ (by decide))
    have hdig : isDecimalDigit (Nat.digitChar (n % 10)) = true := by
      have := Nat.mod_lt n (show 0 < 10 by decide)
      simp only [isDecimalDigit, Bool.and_eq_true, decide_eq_true_eq, hd]
      omega
    by_cases h0 : n / 10 = 0
    · refine ⟨[Nat.digitChar (n % 10)], ?_, ?_, ?_, by simp, ?_⟩
      · simp [Nat.toDigitsCore, h0]
      · intro c hc
        rw [List.mem_singleton] at hc
        rw [hc]
        exact hdig
      · simp only [digitsValue, List.foldl_cons, List.foldl_nil, hd]
        omega
      · intro d more hl hz
        simp only [List.cons.injEq] at hl
        rw [← hl.1, hd] at hz
        omega
    · obtain ⟨l, hl, hall, hval, hne, hhead⟩ :=
        ih (n / 10) (Nat.digitChar (n % 10) :: ds) (by omega)
      refine ⟨l ++ [Nat.digitChar (n % 10)], ?_, ?_, ?_, by simp, ?_⟩
      · simp [Nat.toDigitsCore, h0, hl]
      · intro c hc
        rw [List.mem_append, List.mem_singleton] at hc
        rcases hc with hc | hc
        · exact hall c hc
        · rw [hc]
          exact hdig
      · rw [digitsValue_append_single, hval, hd]
        omega
      · intro d more hcons hz
        cases l with
        | nil => exact absurd rfl hne
        | cons d1 more1 =>
          simp only [List.cons_append, List.cons.injEq] at hcons
          exact absurd (hhead d1 more1 rfl (hcons.1 ▸ hz)) h0

theorem readNat_repr (n : Nat) (c : Char) (rest : List Char) (hc : isDecimalDigit c = false) :
    readNat ((Nat.repr n).data ++ c :: rest) = some (n, c :: rest) := by
  obtain ⟨l, hl, hall, hval, hne, hhead⟩ := toDigitsCore_spec (n + 1) n [] (Nat.lt_succ_self n)
  have hdata : (Nat.repr n).data = l := by
    simp only [Nat.repr, Nat.toDigits, List.asString, hl, List.append_nil]
  rw [hdata]
  unfold readNat
  have htake : (l ++ c :: rest).takeWhile isDecimalDigit = l := by
    rw [List.takeWhile_append_of_pos hall]
    simp [List.takeWhile_cons, hc]
  have hdrop : (l ++ c :: rest).dropWhile isDecimalDigit = c :: rest := by
    rw [List.dropWhile_append_of_pos hall]
    simp [List.dropWhile_cons, hc]
  rw [htake, hdrop]
  cases l with
  | nil => exact absurd rfl hne
  | cons d more =>
    have hlead : ¬ (d.toNat = 0x30 ∧ more ≠ []) := by
      rintro ⟨hz, hmore⟩
      have hn0 : n = 0 := hhead d more rfl hz
      subst hn0
      have h' : d :: more = [Char.ofNat 0x30] := by
        have : Nat.toDigitsCore 10 1 0 [] = [Char.ofNat 0x30] := rfl
        rw [this] at hl
        simpa using hl.symm
      simp only [List.cons.injEq] at h'
      exact hmore h'.2
    simp only [hlead, if_false, hval]

theorem readInt_formatInt (i : Int) (c : Char) (rest : List Char)
    (hc : isDecimalDigit c = false) :
    readInt ((formatInt i).data ++ c :: rest) = some (i, c :: rest) := by
  unfold formatInt
  by_cases hneg : i < 0
  · rw [if_pos hneg]
    have hdata : ("-" ++ Nat.repr i.natAbs).data = Char.ofNat 0x2d :: (Nat.repr i.natAbs).data := by
      rw [String.data_append]
      rfl
    rw [hdata]
    simp only [List.cons_append, readInt]
    rw [if_pos (by decide), readNat_repr _ c rest hc]
    simp only [Option.some.injEq, Prod.mk.injEq, and_true]
    omega
  · rw [if_neg hneg]
    obtain ⟨l, hl, hall, _, hne, _⟩ :=
      toDigitsCore_spec (i.natAbs + 1) i.natAbs [] (Nat.lt_succ_self _)
    have hdata : (Nat.repr i.natAbs).data = l := by
      simp only [Nat.repr, Nat.toDigits, List.asString, hl, List.append_nil]
    have hread := readNat_repr i.natAbs c rest hc
    rw [hdata] at hread ⊢
    cases l with
    | nil => exact absurd rfl hne
    | cons d more =>
      have hd := hall d (List.mem_cons_self _ _)
      have hminus : ¬ d.toNat = 0x2d := by
        simp only [isDecimalDigit, Bool.and_eq_true, decide_eq_true_eq] at hd
        omega
      simp only [List.cons_append] at hread ⊢
      simp only [readInt, hminus, if_false, hread, Option.some.injEq, Prod.mk.injEq, and_true]
      omega

theorem expect_append (lit rest : List Char) : expect lit (lit ++ rest) = some rest := by
  induction lit with
  | nil => cases rest <;> rfl
  | cons l lit ih => simp [expect, ih]

theorem decodeUser_marshalUser (user : User) : decodeUser (marshalUser user) = some user := by
  have hdata : (marshalUser user).data =
      "\x7b\"id\":".data ++ ((encodeString user.ID).data ++ (",\"name\":".data ++
        ((encodeString user.Name).data ++ (",\"age\":".data ++
          ((formatInt user.Age).data ++ Char.ofNat 0x7d :: []))))) := by
    simp only [marshalUser, String.data_append, List.append_assoc]
  unfold decodeUser
  simp only [String.toList, hdata, expect_append, readString_encodeString]
  rw [readInt_formatInt _ _ _ (by decide)]
  simp

/-! ## Dispatcher and handlers -/

/-- C6, dispatch by exact path, then method: for every path and method the
handler answers 404 `Unsupported path` when the path is none of `/create`,
`/get`, `/update`, `/delete`, `/list`; answers 405 `Method not allowed` when the
path is one of the five and the method is not the one allowed for it (POST, GET,
PUT, DELETE, GET); and otherwise does what the matching handler does
(`CreateUser`, `GetUser`, `UpdateUser`, `DeleteUser`, `ListUsers`).  In the 404
and 405 cases the repository is returned as it was. -/
theorem requestHandler_dispatch (Unmarshal : String → Option User) (ctx : RequestCtx)
    (repo : UserRepository) :
    (ctx.Request.path ∉ ["/create", "/get", "/update", "/delete", "/list"] →
        requestHandler Unmarshal ctx repo =
          (⟨ctx.Request, ⟨404, "text/plain; charset=utf-8", "Unsupported path"⟩⟩, repo)) ∧
      (∀ allowed : String,
        (ctx.Request.path, allowed) ∈ [("/create", "POST"), ("/get", "GET"), ("/update", "PUT"),
          ("/delete", "DELETE"), ("/list", "GET")] →
        ctx.Request.method ≠ allowed →
          requestHandler Unmarshal ctx repo =
            (⟨ctx.Request, ⟨405, "text/plain; charset=utf-8", "Method not allowed"⟩⟩, repo)) ∧
      (ctx.Request.path = "/create" → ctx.Request.method = "POST" →
        requestHandler Unmarshal ctx repo = CreateUser Unmarshal ctx repo) ∧
      (ctx.Request.path = "/get" → ctx.Request.method = "GET" →
        requestHandler Unmarshal ctx repo = GetUser ctx repo) ∧
      (ctx.Request.path = "/update" → ctx.Request.method = "PUT" →
        requestHandler Unmarshal ctx repo = UpdateUser Unmarshal ctx repo) ∧
      (ctx.Request.path = "/delete" → ctx.Request.method = "DELETE" →
        requestHandler Unmarshal ctx repo = DeleteUser ctx repo) ∧
      (ctx.Request.path = "/list" → ctx.Request.method = "GET" →
        requestHandler Unmarshal ctx repo = ListUsers ctx repo) := by
  refine ⟨?_, ?_, ?_, ?_, ?_, ?_, ?_⟩
  · intro hp
    simp only [List.mem_cons, List.mem_singleton, List.not_mem_nil, or_false, not_or] at hp
    obtain ⟨h1, h2, h3, h4, h5⟩ := hp
    simp [requestHandler, h1, h2, h3, h4, h5, RequestCtx.Error, StatusNotFound,
      defaultContentType]
  · intro allowed hmem hm
    simp only [List.mem_cons, List.mem_singleton, Prod.mk.injEq, List.not_mem_nil,
      or_false] at hmem
    rcases hmem with ⟨hp, rfl⟩ | ⟨hp, rfl⟩ | ⟨hp, rfl⟩ | ⟨hp, rfl⟩ | ⟨hp, rfl⟩ <;>
      simp [requestHandler, hp, hm, RequestCtx.Error, StatusMethodNotAllowed,
        defaultContentType, MethodGet, MethodPost, MethodPut, MethodDelete]
  · intro hp hm
    simp [requestHandler, hp, hm, MethodPost]
  · intro hp hm
    simp [requestHandler, hp, hm, MethodGet]
  · intro hp hm
    simp [requestHandler, hp, hm, MethodPut]
  · intro hp hm
    simp [requestHandler, hp, hm, MethodDelete]
  · intro hp hm
    simp [requestHandler, hp, hm, MethodGet]

theorem requestHandler_dispatch_witness :
    ("/users" ∉ ["/create", "/get", "/update", "/delete", "/list"]) ∧
      requestHandler (fun _ => none) (RequestCtx.init ⟨"/users", "GET", [], ""⟩)
          (NewUserRepository.Create ⟨"a", "Alice", 30⟩) =
        (⟨⟨"/users", "GET", [], ""⟩, ⟨404, "text/plain; charset=utf-8", "Unsupported path"⟩⟩,
          NewUserRepository.Create ⟨"a", "Alice", 30⟩) ∧
      (("/delete", "DELETE") ∈ [("/create", "POST"), ("/get", "GET"), ("/update", "PUT"),
          ("/delete", "DELETE"), ("/list", "GET")] ∧ "GET" ≠ "DELETE") ∧
      requestHandler (fun _ => none) (RequestCtx.init ⟨"/delete", "GET", [("id", "a")], ""⟩)
          (NewUserRepository.Create ⟨"a", "Alice", 30⟩) =
        (⟨⟨"/delete", "GET", [("id", "a")], ""⟩,
            ⟨405, "text/plain; charset=utf-8", "Method not allowed"⟩⟩,
          NewUserRepository.Create ⟨"a", "Alice", 30⟩) ∧
      requestHandler (fun _ => none) (RequestCtx.init ⟨"/list", "GET", [], ""⟩)
          (NewUserRepository.Create ⟨"a", "Alice", 30⟩) =
        ListUsers (RequestCtx.init ⟨"/list", "GET", [], ""⟩)
          (NewUserRepository.Create ⟨"a", "Alice", 30⟩) :=
  ⟨by decide,
    (requestHandler_dispatch (fun _ => none) (RequestCtx.init ⟨"/users", "GET", [], ""⟩)
      (NewUserRepository.Create ⟨"a", "Alice", 30⟩)).1 (by decide),
    by decide,
    (requestHandler_dispatch (fun _ => none)
      (RequestCtx.init ⟨"/delete", "GET", [("id", "a")], ""⟩)
      (NewUserRepository.Create ⟨"a", "Alice", 30⟩)).2.1 "DELETE" (by decide) (by decide),
    (requestHandler_dispatch (fun _ => none) (RequestCtx.init ⟨"/list", "GET", [], ""⟩)
      (NewUserRepository.Create ⟨"a", "Alice", 30⟩)).2.2.2.2.2.2 rfl rfl⟩

/-- C7, outcomes of `GET /get`: for every repository state and every value of
the `id` query argument, `GetUser` answers 400 `User ID not provided` exactly
when the argument is missing or empty; otherwise 404 `User not found` exactly
when `Read(id)` reports `found = false`; otherwise 200 with content type
`application/json` and a body that is the JSON encoding of the record stored
under the id: the bytes `json.Marshal` produces, and a text that the JSON reader
`decodeUser` accepts as an object with the members `id`, `name`, `age` and reads
back as that record.  The repository is returned as it was in the three
cases. -/
theorem GetUser_outcomes (req : Request) (repo : UserRepository) :
    ((GetUser (RequestCtx.init req) repo).1.Response.statusCode = 400 ↔
        (req.queryArgs.lookup "id" = none ∨ req.queryArgs.lookup "id" = some "")) ∧
      ((req.queryArgs.lookup "id" = none ∨ req.queryArgs.lookup "id" = some "") →
        (GetUser (RequestCtx.init req) repo).1.Response =
          ⟨400, "text/plain; charset=utf-8", "User ID not provided"⟩) ∧
      (∀ id : String, req.queryArgs.lookup "id" = some id → id ≠ "" →
        ((GetUser (RequestCtx.init req) repo).1.Response.statusCode = 404 ↔
          (repo.Read id).2 = false) ∧
        ((repo.Read id).2 = false →
          (GetUser (RequestCtx.init req) repo).1.Response =
            ⟨404, "text/plain; charset=utf-8", "User not found"⟩) ∧
        (∀ user : User, repo.Read id = (user, true) →
          (GetUser (RequestCtx.init req) repo).1.Response =
            ⟨200, "application/json",
              "\x7b\"id\":" ++ encodeString user.ID ++ ",\"name\":" ++ encodeString user.Name ++
                ",\"age\":" ++ formatInt user.Age ++ "\x7d"⟩ ∧
          decodeUser (GetUser (RequestCtx.init req) repo).1.Response.body = some user)) ∧
      (GetUser (RequestCtx.init req) repo).1.Request = req ∧
      (GetUser (RequestCtx.init req) repo).2 = repo := by
  have hempty : (req.queryArgs.lookup "id" = none ∨ req.queryArgs.lookup "id" = some "") →
      GetUser (RequestCtx.init req) repo =
        (⟨req, ⟨400, "text/plain; charset=utf-8", "User ID not provided"⟩⟩, repo) := by
    intro h
    rcases h with h | h <;>
      simp [GetUser, RequestCtx.Peek, RequestCtx.init, h, bytesToString, RequestCtx.Error,
        StatusBadRequest, defaultContentType]
  have hmiss : ∀ id : String, req.queryArgs.lookup "id" = some id → id ≠ "" →
      (repo.Read id).2 = false →
      GetUser (RequestCtx.init req) repo =
        (⟨req, ⟨404, "text/plain; charset=utf-8", "User not found"⟩⟩, repo) := by
    intro id h hne hr
    have hl := (Read_snd_eq_false_iff repo id).1 hr
    simp [GetUser, RequestCtx.Peek, RequestCtx.init, h, bytesToString, hne,
      Read_of_Load_none repo id hl, RequestCtx.Error, StatusNotFound, defaultContentType]
  have hfound : ∀ (id : String) (user : User), req.queryArgs.lookup "id" = some id → id ≠ "" →
      repo.Read id = (user, true) →
      GetUser (RequestCtx.init req) repo =
        (⟨req, ⟨200, "application/json", marshalUser user⟩⟩, repo) := by
    intro id user h hne hr
    simp [GetUser, RequestCtx.Peek, RequestCtx.init, h, bytesToString, hne, hr,
      RequestCtx.SetContentType, RequestCtx.SetBody, Response.fresh, StatusOK]
  have hcases : ∀ id : String, (repo.Read id).2 = false ∨ ∃ user, repo.Read id = (user, true) := by
    intro id
    rcases hr : repo.Read id with ⟨user, b⟩
    cases b
    · exact Or.inl rfl
    · exact Or.inr ⟨user, rfl⟩
  refine ⟨⟨?_, fun h => by rw [hempty h]⟩, fun h => by rw [hempty h], ?_, ?_, ?_⟩
  · intro hs
    by_contra hcon
    rw [not_or] at hcon
    obtain ⟨id, hid⟩ := Option.ne_none_iff_exists'.1 hcon.1
    have hne : id ≠ "" := fun h => hcon.2 (h ▸ hid)
    rcases hcases id with hr | ⟨user, hr⟩
    · rw [hmiss id hid hne hr] at hs
      simp at hs
    · rw [hfound id user hid hne hr] at hs
      simp at hs
  · intro id hid hne
    refine ⟨⟨?_, fun hr => by rw [hmiss id hid hne hr]⟩, fun hr => by rw [hmiss id hid hne hr],
      fun user hr => by rw [hfound id user hid hne hr]; exact ⟨rfl, decodeUser_marshalUser user⟩⟩
    intro hs
    rcases hcases id with hr | ⟨user, hr⟩
    · exact hr
    · rw [hfound id user hid hne hr] at hs
      simp at hs
  · by_cases h : req.queryArgs.lookup "id" = none ∨ req.queryArgs.lookup "id" = some ""
    · rw [hempty h]
    · rw [not_or] at h
      obtain ⟨id, hid⟩ := Option.ne_none_iff_exists'.1 h.1
      have hne : id ≠ "" := fun h' => h.2 (h' ▸ hid)
      rcases hcases id with hr | ⟨user, hr⟩
      · rw [hmiss id hid hne hr]
      · rw [hfound id user hid hne hr]
  · by_cases h : req.queryArgs.lookup "id" = none ∨ req.queryArgs.lookup "id" = some ""
    · rw [hempty h]
    · rw [not_or] at h
      obtain ⟨id, hid⟩ := Option.ne_none_iff_exists'.1 h.1
      have hne : id ≠ "" := fun h' => h.2 (h' ▸ hid)
      rcases hcases id with hr | ⟨user, hr⟩
      · rw [hmiss id hid hne hr]
      · rw [hfound id user hid hne hr]

theorem GetUser_outcomes_witness :
    (([("id", "1")] : List (String × String)).lookup "id" = some "1" ∧ "1" ≠ "" ∧
        (NewUserRepository.Create ⟨"1", "a\"b<c", -7⟩).Read "1" = (⟨"1", "a\"b<c", -7⟩, true)) ∧
      ((GetUser (RequestCtx.init ⟨"/get", "GET", [("id", "1")], ""⟩)
          (NewUserRepository.Create ⟨"1", "a\"b<c", -7⟩)).1.Response =
        ⟨200, "application/json", "\x7b\"id\":\"1\",\"name\":\"a\\\"b\\u003cc\",\"age\":-7\x7d"⟩ ∧
        decodeUser (GetUser (RequestCtx.init ⟨"/get", "GET", [("id", "1")], ""⟩)
          (NewUserRepository.Create ⟨"1", "a\"b<c", -7⟩)).1.Response.body =
            some ⟨"1", "a\"b<c", -7⟩) ∧
      (([] : List (String × String)).lookup "id" = none ∨
        ([] : List (String × String)).lookup "id" = some "") ∧
      (GetUser (RequestCtx.init ⟨"/get", "GET", [], ""⟩)
          (NewUserRepository.Create ⟨"1", "Eve", 25⟩)).1.Response =
        ⟨400, "text/plain; charset=utf-8", "User ID not provided"⟩ :=
  ⟨by decide,
    ⟨((((GetUser_outcomes ⟨"/get", "GET", [("id", "1")], ""⟩
      (NewUserRepository.Create ⟨"1", "a\"b<c", -7⟩)).2.2.1 "1" (by decide) (by decide)).2.2
        ⟨"1", "a\"b<c", -7⟩ (by decide)).1).trans (by decide),
      (((GetUser_outcomes ⟨"/get", "GET", [("id", "1")], ""⟩
      (NewUserRepository.Create ⟨"1", "a\"b<c", -7⟩)).2.2.1 "1" (by decide) (by decide)).2.2
        ⟨"1", "a\"b<c", -7⟩ (by decide)).2⟩,
    by decide,
    (GetUser_outcomes ⟨"/get", "GET", [], ""⟩
      (NewUserRepository.Create ⟨"1", "Eve", 25⟩)).2.1 (by decide)⟩

/-- C8 as stated fails: with a record stored under the empty-string key,
`DeleteUser` without an `id` query argument, or with an empty one, removes that
record. -/
theorem DeleteUser_empty_id_removes_record :
    (DeleteUser (RequestCtx.init ⟨"/delete", "DELETE", [], ""⟩)
        (NewUserRepository.Create ⟨"", "Eve", 25⟩)).2 = NewUserRepository ∧
      (DeleteUser (RequestCtx.init ⟨"/delete", "DELETE", [], ""⟩)
        (NewUserRepository.Create ⟨"", "Eve", 25⟩)).2 ≠ NewUserRepository.Create ⟨"", "Eve", 25⟩ ∧
      (DeleteUser (RequestCtx.init ⟨"/delete", "DELETE", [("id", "")], ""⟩)
        (NewUserRepository.Update "" ⟨"1", "Eve", 25⟩)).2 ≠
          NewUserRepository.Update "" ⟨"1", "Eve", 25⟩ := by
  decide

/-- C8, amended: in every repository state, `DeleteUser` called with no `id`
query argument or an empty one removes the record stored under the empty-string
key when there is one and no other record, so the repository is unchanged
exactly when no record is stored under the empty-string key; it answers 204
with body `User deleted successfully`. -/
theorem DeleteUser_empty_id (req : Request) (repo : UserRepository)
    (hid : req.queryArgs.lookup "id" = none ∨ req.queryArgs.lookup "id" = some "") :
    (DeleteUser (RequestCtx.init req) repo).2 = repo.Delete "" ∧
      ((DeleteUser (RequestCtx.init req) repo).2.Read "" = (User.zero, false)) ∧
      (∀ id : String, id ≠ "" →
        (DeleteUser (RequestCtx.init req) repo).2.Read id = repo.Read id) ∧
      ((DeleteUser (RequestCtx.init req) repo).2 = repo ↔ (repo.Read "").2 = false) ∧
      (DeleteUser (RequestCtx.init req) repo).1.Response =
        ⟨204, "text/plain; charset=utf-8", "User deleted successfully"⟩ := by
  have hout : DeleteUser (RequestCtx.init req) repo =
      (⟨req, ⟨204, "text/plain; charset=utf-8", "User deleted successfully"⟩⟩,
        repo.Delete "") := by
    rcases hid with h | h <;>
      simp [DeleteUser, RequestCtx.Peek, RequestCtx.init, h, bytesToString,
        RequestCtx.SetStatusCode, RequestCtx.SetBody, Response.fresh, StatusNoContent,
        defaultContentType]
  rw [hout]
  refine ⟨rfl, Read_Delete_self repo "", ?_, ⟨?_, Delete_of_Read_false repo ""⟩, rfl⟩
  · intro id hne
    simp only [UserRepository.Read, UserRepository.Delete, Load_Delete_of_ne repo.users hne]
  · intro h
    have := Read_Delete_self repo ""
    simp only at h
    rw [h] at this
    rw [this]

theorem DeleteUser_empty_id_witness :
    (([("name", "x")] : List (String × String)).lookup "id" = none ∨
        ([("name", "x")] : List (String × String)).lookup "id" = some "") ∧
      (DeleteUser (RequestCtx.init ⟨"/delete", "DELETE", [("name", "x")], ""⟩)
        (NewUserRepository.Create ⟨"a", "Alice", 30⟩)).2 =
          (NewUserRepository.Create ⟨"a", "Alice", 30⟩).Delete "" :=
  ⟨by decide,
    (DeleteUser_empty_id ⟨"/delete", "DELETE", [("name", "x")], ""⟩
      (NewUserRepository.Create ⟨"a", "Alice", 30⟩) (by decide)).1⟩

/-- What `ListUsers` does in every repository state: status 200, content type
`application/json`, the repository returned as it was; the body is `null` when
the repository is empty and otherwise the JSON array of the stored records, one
element per record. -/
theorem ListUsers_response (req : Request) (repo : UserRepository) :
    ListUsers (RequestCtx.init req) repo =
      (⟨req, ⟨200, "application/json",
        match repo.users.entries with
        | [] => "null"
        | _ :: _ =>
          "[" ++ String.intercalate "," (repo.users.entries.map (fun e => marshalUser e.2)) ++
            "]"⟩⟩, repo) := by
  simp only [ListUsers, RequestCtx.init, RequestCtx.SetContentType, RequestCtx.SetBody,
    Response.fresh, StatusOK, List_eq]
  cases repo.users.entries <;> simp [marshalUsers, Function.comp_def]

/-- C9 at the empty repository: `ListUsers` answers 200 with content type
`application/json` and the four-character body `null`, which does not begin
with `[`. -/
theorem ListUsers_empty_body_null :
    ListUsers (RequestCtx.init ⟨"/list", "GET", [], ""⟩) NewUserRepository =
        (⟨⟨"/list", "GET", [], ""⟩, ⟨200, "application/json", "null"⟩⟩, NewUserRepository) ∧
      (ListUsers (RequestCtx.init ⟨"/list", "GET", [], ""⟩)
        NewUserRepository).1.Response.body.toList.head? ≠ some '[' := by
  decide

end UserCrud
